import Mathlib

/-!
# Verification of the screenshot server's security-validation core

Shallow embedding of the three core components of the repository:

* `isBlockedIPv4`, `isBlockedIPv6`, `validateUrl` (SSRF / DNS-rebinding
  validator, `src/validators/url.ts`),
* `validateOutputPath` (path-traversal / symlink validator,
  `src/validators/path.ts`),
* `Semaphore` (async concurrency gate, `src/utils/semaphore.ts`).

JavaScript strings are modelled as `String` / `List Char`; the handful of
platform primitives the code uses (`String.prototype.split`, `trim`,
`includes`, `parseInt`, Node's `path.resolve/join/dirname/relative` in their
POSIX flavour) are given executable Lean models next to the functions that
use them.  Injected capabilities (the DNS resolver and the `realpath`
capability) are modelled as explicit function arguments, and fallible
operations return `Option`/`Except` instead of throwing, so that
"the validator never lets an exception escape" is represented by totality
of the Lean functions.
-/

/-! ## Generic character/list helpers (models of JS string primitives) -/

/-- `beginsWith pat l` models JS `String.prototype.startsWith`. -/
def beginsWith (pat l : List Char) : Bool :=
  pat.isPrefixOf l

/-- `endsWithL pat l` models JS `String.prototype.endsWith`. -/
def endsWithL (pat l : List Char) : Bool :=
  beginsWith pat.reverse l.reverse

/-- `containsSeq pat l` models JS `String.prototype.includes`. -/
def containsSeq (pat l : List Char) : Bool :=
  match l with
  | [] => pat.isEmpty
  | _ :: rest => pat.isPrefixOf l || containsSeq pat rest

/-- `splitSep sep l` models JS `String.prototype.split` with a one-character
separator: `"a.b.".split "."` gives `["a", "b", ""]`. -/
def splitSep (sep : Char) : List Char → List (List Char)
  | [] => [[]]
  | c :: rest =>
    match splitSep sep rest with
    | [] => [[]]
    | g :: gs => if c = sep then [] :: g :: gs else (c :: g) :: gs

/-- Whitespace as trimmed by JS `String.prototype.trim` (the ASCII part,
which is all the repository ever feeds it). -/
def jsWhitespace (c : Char) : Bool :=
  c = ' ' || c = '\t' || c = '\n' || c = '\r' || c = '\x0b' || c = '\x0c'

/-- Model of JS `String.prototype.trim`. -/
def jsTrim (l : List Char) : List Char :=
  ((l.dropWhile jsWhitespace).reverse.dropWhile jsWhitespace).reverse

/-- Model of JS `String.prototype.toLowerCase` on the ASCII range. -/
def jsToLower (l : List Char) : List Char :=
  l.map Char.toLower

def isDigitChar (c : Char) : Bool :=
  '0' ≤ c && c ≤ '9'

/-- Numeric value of a decimal digit string; on all-digit groups this agrees
with JS `Number(group)` as used by the validator. -/
def digitsVal (l : List Char) : Nat :=
  l.foldl (fun n c => n * 10 + (c.toNat - 48)) 0

/-- Lower-case hexadecimal digits (the regexes run on lower-cased input). -/
def isLowerHexDigit (c : Char) : Bool :=
  isDigitChar c || ('a' ≤ c && c ≤ 'f')

def hexDigitVal (c : Char) : Nat :=
  if isDigitChar c then c.toNat - 48 else c.toNat - 87

def hexVal (l : List Char) : Nat :=
  l.foldl (fun n c => n * 16 + hexDigitVal c) 0

/-- Model of JS `parseInt(s, 16)` for inputs without leading whitespace,
sign or `0x` prefix (all inputs in this code base): the longest hex-digit
prefix is parsed, and an empty prefix gives `NaN` (`none`). -/
def jsParseIntHex (l : List Char) : Option Nat :=
  let ds := l.takeWhile isLowerHexDigit
  if ds.isEmpty then none else some (hexVal ds)

/-- JS bitwise `&` (ToInt32 then mask); the sign of the 32-bit conversion is
irrelevant for the masks used here, which keep only low bits. -/
def jsAnd (v m : Nat) : Nat :=
  (v % 4294967296) &&& m

/-- Decimal rendering of a byte value, as JS template interpolation
produces for numbers below 1000 (all uses are masked byte values). -/
def digitChar (n : Nat) : Char :=
  Char.ofNat (48 + n)

def natRender (n : Nat) : List Char :=
  if n < 10 then [digitChar n]
  else if n < 100 then [digitChar (n / 10), digitChar (n % 10)]
  else [digitChar (n / 100), digitChar (n / 10 % 10), digitChar (n % 10)]

/-- JS template interpolation of an optional string (`undefined` prints as
`"undefined"`). -/
def optStr : Option String → String
  | some s => s
  | none => "undefined"

/-! ## Block decision and IPv4 classifier (`src/validators/url.ts`, lines 15-71) -/

structure BlockDecision where
  blocked : Bool
  reason : Option String := none
deriving DecidableEq

/-- One group of the regex `^(\d{1,3})\.(\d{1,3})\.(\d{1,3})\.(\d{1,3})$`:
one to three decimal digits. -/
def digitGroupOk (g : List Char) : Bool :=
  !g.isEmpty && g.length ≤ 3 && g.all isDigitChar

/-- The match of `ip.match(/^(\d{1,3})\.(\d{1,3})\.(\d{1,3})\.(\d{1,3})$/)`
together with the `Number` conversion of the four captured groups. -/
def parseQuad (l : List Char) : Option (Nat × Nat × Nat × Nat) :=
  match splitSep '.' l with
  | [g1, g2, g3, g4] =>
    if digitGroupOk g1 && digitGroupOk g2 && digitGroupOk g3 && digitGroupOk g4 then
      some (digitsVal g1, digitsVal g2, digitsVal g3, digitsVal g4)
    else none
  | _ => none

/-- The chain of range checks of `isBlockedIPv4` on the four parsed groups
(source lines 24-70). -/
def blockedOctets (a b c d : Nat) : BlockDecision :=
  if a = 127 then
    { blocked := true, reason := some "Access to loopback addresses is not allowed" }
  else if a = 10 then
    { blocked := true, reason := some "Access to private network (10.x.x.x) is not allowed" }
  else if a = 172 && 16 ≤ b && b ≤ 31 then
    { blocked := true, reason := some "Access to private network (172.16-31.x.x) is not allowed" }
  else if a = 192 && b = 168 then
    { blocked := true, reason := some "Access to private network (192.168.x.x) is not allowed" }
  else if a = 169 && b = 254 then
    { blocked := true, reason := some "Access to link-local/metadata addresses (169.254.x.x) is not allowed" }
  else if a = 0 then
    { blocked := true, reason := some "Access to 0.x.x.x addresses is not allowed" }
  else if a = 100 && 64 ≤ b && b ≤ 127 then
    { blocked := true, reason := some "Access to shared/CGNAT addresses (100.64-127.x.x) is not allowed" }
  else if a = 198 && (b = 18 || b = 19) then
    { blocked := true, reason := some "Access to benchmark addresses (198.18-19.x.x) is not allowed" }
  else if a = 255 && b = 255 && c = 255 && d = 255 then
    { blocked := true, reason := some "Access to broadcast address is not allowed" }
  else
    { blocked := false }

/-- `isBlockedIPv4` (source lines 16-71): non-matching strings pass through
as not blocked; matching strings are classified by octet ranges. -/
def isBlockedIPv4 (ip : String) : BlockDecision :=
  match parseQuad ip.data with
  | none => { blocked := false }
  | some (a, b, c, d) => blockedOctets a b c d

/-! ## Concurrency gate (`src/utils/semaphore.ts`) -/

/-- The gate's own mutable state: the `permits` counter and the FIFO queue
of suspended `acquire` callers (represented by caller identifiers standing
for the queued `resolve` callbacks). -/
structure GateState where
  permits : Nat
  waiting : List Nat
deriving DecidableEq

namespace Semaphore

/-- `new Semaphore(permits)`. -/
def init (permits : Nat) : GateState :=
  { permits := permits, waiting := [] }

/-- `tryAcquire()`: returns whether a permit was consumed, plus the new
state (source lines 35-41). -/
def tryAcquire (s : GateState) : Bool × GateState :=
  if 0 < s.permits then (true, { s with permits := s.permits - 1 })
  else (false, s)

/-- One `acquire()` call by caller `id`: either a permit is consumed
immediately (`true`) or the caller is appended to the wait queue
(`false`) and stays suspended (source lines 21-29). -/
def acquireStep (id : Nat) (s : GateState) : Bool × GateState :=
  if 0 < s.permits then (true, { s with permits := s.permits - 1 })
  else (false, { s with waiting := s.waiting ++ [id] })

/-- `release()`: hands the permit directly to the longest-waiting caller if
any (returning its identifier), otherwise increments the counter
(source lines 46-54). -/
def release (s : GateState) : Option Nat × GateState :=
  match s.waiting with
  | w :: ws => (some w, { s with waiting := ws })
  | [] => (none, { s with permits := s.permits + 1 })

/-- `get available` (source lines 59-61). -/
def available (s : GateState) : Nat :=
  s.permits

/-- `get waitingCount` (source lines 66-68). -/
def waitingCount (s : GateState) : Nat :=
  s.waiting.length

end Semaphore

/-- One operation of a gate usage trace. -/
inductive GateOp where
  | acquire (id : Nat)
  | tryAcquire
  | release
deriving DecidableEq

/-- A gate state extended with ghost bookkeeping: `outstanding` counts
acquired-but-unreleased units (holders), `enqueued` lists every caller ever
suspended in arrival order, `resumed` lists the callers woken by `release`
in wake order. -/
structure GateTrace where
  state : GateState
  outstanding : Nat
  enqueued : List Nat
  resumed : List Nat
deriving DecidableEq

def GateTrace.start (capacity : Nat) : GateTrace :=
  { state := Semaphore.init capacity, outstanding := 0, enqueued := [], resumed := [] }

/-- Execute one gate operation, maintaining the ghost fields.  A `release`
by a holder whose permit is handed to a waiter keeps `outstanding`
unchanged (the unit moves from the releaser to the woken waiter). -/
def stepOp (t : GateTrace) (op : GateOp) : GateTrace :=
  match op with
  | .acquire id =>
    match Semaphore.acquireStep id t.state with
    | (true, s) => { t with state := s, outstanding := t.outstanding + 1 }
    | (false, s) => { t with state := s, enqueued := t.enqueued ++ [id] }
  | .tryAcquire =>
    match Semaphore.tryAcquire t.state with
    | (true, s) => { t with state := s, outstanding := t.outstanding + 1 }
    | (false, s) => { t with state := s }
  | .release =>
    match Semaphore.release t.state with
    | (some w, s) => { t with state := s, resumed := t.resumed ++ [w] }
    | (none, s) => { t with state := s, outstanding := t.outstanding - 1 }

def runOps (t : GateTrace) (ops : List GateOp) : GateTrace :=
  ops.foldl stepOp t

/-- A trace is valid when every `release` matches a prior successful
`acquire`/`tryAcquire` — i.e. is performed while some caller actually
holds a unit. -/
def validOps (t : GateTrace) : List GateOp → Bool
  | [] => true
  | op :: rest =>
    (match op with
     | .release => decide (0 < t.outstanding)
     | _ => true) && validOps (stepOp t op) rest

/-- The gate invariant: all capacity is accounted for
(`permits + outstanding = capacity`), the counter is zero whenever waiters
exist, and the wake order is the arrival order (`enqueued` is exactly
`resumed` followed by the still-waiting queue). -/
def GateInv (capacity : Nat) (t : GateTrace) : Prop :=
  t.state.permits + t.outstanding = capacity ∧
  (t.state.waiting ≠ [] → t.state.permits = 0) ∧
  t.enqueued = t.resumed ++ t.state.waiting

/-! ## IPv6 classifier (`src/validators/url.ts`, lines 74-125) -/

/-- The match of `/^::ffff:(\d{1,3}\.\d{1,3}\.\d{1,3}\.\d{1,3})$/`,
returning the captured dotted-quad substring. -/
def mappedDotted (n : List Char) : Option (List Char) :=
  if beginsWith "::ffff:".data n then
    let rest := n.drop 7
    if (parseQuad rest).isSome then some rest else none
  else none

def hexGroupOk (g : List Char) : Bool :=
  !g.isEmpty && g.length ≤ 4 && g.all isLowerHexDigit

/-- The match of `/^::ffff:([0-9a-f]{1,4}):([0-9a-f]{1,4})$/`, returning
the two captured hex groups. -/
def mappedHexGroups (n : List Char) : Option (List Char × List Char) :=
  if beginsWith "::ffff:".data n then
    match splitSep ':' (n.drop 7) with
    | [g1, g2] => if hexGroupOk g1 && hexGroupOk g2 then some (g1, g2) else none
    | _ => none
  else none

/-- The dotted-decimal string rebuilt from the two hex groups of an
IPv4-mapped address (source lines 111-117): byte extraction by shifts and
masks, then template interpolation. -/
def unmappedHexQuad (g1 g2 : List Char) : List Char :=
  let high := hexVal g1
  let low := hexVal g2
  let a := (high >>> 8) &&& 255
  let b := high &&& 255
  let c := (low >>> 8) &&& 255
  let d := low &&& 255
  natRender a ++ '.' :: (natRender b ++ '.' :: (natRender c ++ '.' :: natRender d))

/-- The first-group link-local test of `isBlockedIPv6` (source lines
85-91): the substring before the first `:` is hex-parsed and masked. -/
def firstGroupLinkLocal (n : List Char) : Bool :=
  match (splitSep ':' n).headD [] with
  | [] => false
  | g =>
    match jsParseIntHex g with
    | none => false
    | some v => jsAnd v 65472 = 65152

/-- The IPv4-mapped hex-form branch and the final fall-through of
`isBlockedIPv6` (source lines 107-124). -/
def ipv6HexMappedCheck (n : List Char) : BlockDecision :=
  match mappedHexGroups n with
  | some (g1, g2) =>
    let ipv4Check := isBlockedIPv4 (String.mk (unmappedHexQuad g1 g2))
    if ipv4Check.blocked then
      { blocked := true,
        reason := some ("Access to IPv4-mapped blocked address: " ++ optStr ipv4Check.reason) }
    else { blocked := false }
  | none => { blocked := false }

/-- `isBlockedIPv6` (source lines 74-125). -/
def isBlockedIPv6 (ip : String) : BlockDecision :=
  let n := jsToLower ip.data
  if n = "::1".data then
    { blocked := true, reason := some "Access to IPv6 localhost is not allowed" }
  else if firstGroupLinkLocal n then
    { blocked := true, reason := some "Access to IPv6 link-local addresses is not allowed" }
  else if beginsWith "fc".data n || beginsWith "fd".data n then
    { blocked := true, reason := some "Access to IPv6 private addresses is not allowed" }
  else
    match mappedDotted n with
    | some q =>
      let ipv4Check := isBlockedIPv4 (String.mk q)
      if ipv4Check.blocked then
        { blocked := true,
          reason := some ("Access to IPv4-mapped blocked address: " ++ optStr ipv4Check.reason) }
      else ipv6HexMappedCheck n
    | none => ipv6HexMappedCheck n

/-! ## URL validator (`src/validators/url.ts`, lines 131-217) -/

structure LookupAddress where
  address : String
  family : Nat
deriving DecidableEq

structure UrlValidationResult where
  valid : Bool
  error : Option String := none
  resolvedIp : Option String := none
  hostname : Option String := none
deriving DecidableEq

/-- The injected DNS capability: all family-tagged addresses, or a
resolution error (NXDOMAIN, timeout, …) carrying its message. -/
def DnsResolver : Type :=
  String → Except String (List LookupAddress)

/-- The outcome of `new URL(urlString)`, which is platform code: either a
thrown `TypeError` (`failure`) or a parse exposing `protocol` and
`hostname`. -/
inductive UrlParseOutcome where
  | failure
  | success (protocol : String) (hostname : String)
deriving DecidableEq

/-- The `for (const addr of addresses)` loop of `validateUrl` (source lines
193-208), threading `firstNonBlockedIp` (JS falsiness of the accumulator
means `undefined` or the empty string): a blocked address aborts with the
error message, otherwise the scan yields the final accumulator. -/
def scanAddresses : List LookupAddress → Option String → Except String (Option String)
  | [], first => .ok first
  | addr :: rest, first =>
    if addr.family = 4 then
      let ipCheck := isBlockedIPv4 addr.address
      if ipCheck.blocked then
        .error ("DNS resolved to blocked IP: " ++ optStr ipCheck.reason)
      else
        scanAddresses rest
          (match first with
           | none => some addr.address
           | some s => if s = "" then some addr.address else some s)
    else if addr.family = 6 then
      let ipCheck := isBlockedIPv6 addr.address
      if ipCheck.blocked then
        .error ("DNS resolved to blocked IP: " ++ optStr ipCheck.reason)
      else
        scanAddresses rest
          (match first with
           | none => some addr.address
           | some s => if s = "" then some addr.address else some s)
    else scanAddresses rest first

/-- `validateUrl` (source lines 131-217).  URL parsing is platform code and
enters as a `UrlParseOutcome`; the DNS resolver is the injected capability.
Totality of this function models the propagation policy: every outcome,
including resolver failure, is a structured result, never an exception. -/
def validateUrl (parseOutcome : UrlParseOutcome) (dnsResolver : DnsResolver) :
    UrlValidationResult :=
  match parseOutcome with
  | .failure => { valid := false, error := some "Invalid URL format" }
  | .success protocol rawHostname =>
    if protocol ≠ "http:" ∧ protocol ≠ "https:" then
      { valid := false, error := some "Only http and https protocols are allowed" }
    else
      let hostname := String.mk (jsToLower rawHostname.data)
      if hostname = "localhost" ∨ hostname = "localhost.localdomain" then
        { valid := false, error := some "Access to localhost is not allowed" }
      else if hostname = "[::1]" then
        { valid := false, error := some "Access to IPv6 localhost is not allowed" }
      else
        let isLiteralIPv4 := (parseQuad hostname.data).isSome
        let isLiteralIPv6 := beginsWith "[".data hostname.data && endsWithL "]".data hostname.data
        if isLiteralIPv4 then
          let ipCheck := isBlockedIPv4 hostname
          if ipCheck.blocked then { valid := false, error := ipCheck.reason }
          else { valid := true, resolvedIp := some hostname, hostname := some hostname }
        else if isLiteralIPv6 then
          let ipv6 := String.mk ((hostname.data.drop 1).dropLast)
          let ipCheck := isBlockedIPv6 ipv6
          if ipCheck.blocked then { valid := false, error := ipCheck.reason }
          else { valid := true, resolvedIp := some ipv6, hostname := some hostname }
        else
          match dnsResolver hostname with
          | .error msg =>
            { valid := false, error := some ("DNS resolution failed: " ++ msg) }
          | .ok addresses =>
            if addresses.length = 0 then
              { valid := false, error := some "DNS resolution returned no addresses" }
            else
              match scanAddresses addresses none with
              | .error e => { valid := false, error := some e }
              | .ok first =>
                { valid := true, resolvedIp := first, hostname := some hostname }

/-! ## POSIX path primitives (models of Node's `path` module as used by
`src/validators/path.ts`; all paths handled by that module there are
POSIX-style) -/

/-- Segments re-joined with `/` separators. -/
def joinSegs : List (List Char) → List Char
  | [] => []
  | [g] => g
  | g :: gs => g ++ '/' :: joinSegs gs

/-- One step of Node's `normalizeString` with `allowAboveRoot = false`
(absolute paths): empty and `.` segments are dropped, `..` pops, others
push.  The stack is kept reversed. -/
def stepSeg (stack : List (List Char)) (seg : List Char) : List (List Char) :=
  if seg = [] || seg = ['.'] then stack
  else if seg = ['.', '.'] then stack.tail
  else seg :: stack

/-- One step of `normalizeString` with `allowAboveRoot = true` (relative
paths): `..` pops unless the stack is empty or already topped by `..`. -/
def stepSegRel (stack : List (List Char)) (seg : List Char) : List (List Char) :=
  if seg = [] || seg = ['.'] then stack
  else if seg = ['.', '.'] then
    match stack with
    | s :: rest => if s = ['.', '.'] then ['.', '.'] :: s :: rest else rest
    | [] => [['.', '.']]
  else seg :: stack

/-- The normalized segment list of an absolute path. -/
def pathSegs (l : List Char) : List (List Char) :=
  ((splitSep '/' l).foldl stepSeg []).reverse

/-- Node `path.resolve(p)` for an absolute `p`: normalize and re-join with
a leading `/` and no trailing separator. -/
def resolveAbs (l : List Char) : List Char :=
  '/' :: joinSegs (pathSegs l)

/-- Node `path.resolve(base, p)` as called with the repository's absolute
`defaultOutDir` base: an absolute `p` wins, otherwise `p` is resolved
against `base`. -/
def resolve2 (base p : List Char) : List Char :=
  if beginsWith ['/'] p then resolveAbs p
  else resolveAbs (base ++ '/' :: p)

/-- Node `path.normalize` (POSIX). -/
def normalizePosix (l : List Char) : List Char :=
  match l with
  | [] => ['.']
  | c0 :: _ =>
    let isAbs := c0 = '/'
    let trail := l.getLast? = some '/'
    let segs := ((splitSep '/' l).foldl (if isAbs then stepSeg else stepSegRel) []).reverse
    match segs with
    | [] => if isAbs then ['/'] else if trail then ['.', '/'] else ['.']
    | _ =>
      let body := joinSegs segs
      (if isAbs then '/' :: body else body) ++ (if trail then ['/'] else [])

/-- Node `path.join(a, b)` (POSIX): concatenate the non-empty parts with a
separator and normalize. -/
def joinPosix (a b : List Char) : List Char :=
  if a = [] && b = [] then ['.']
  else if a = [] then normalizePosix b
  else if b = [] then normalizePosix a
  else normalizePosix (a ++ '/' :: b)

/-- Node `path.dirname` (POSIX): trailing separators are skipped, then
everything from the last separator on is cut off. -/
def dirnameL (l : List Char) : List Char :=
  match l with
  | [] => ['.']
  | c0 :: rest =>
    let hasRoot := c0 = '/'
    let r1 := rest.reverse.dropWhile (fun c => c = '/')
    let r2 := r1.dropWhile (fun c => c ≠ '/')
    match r2 with
    | [] => if hasRoot then ['/'] else ['.']
    | _ :: r3 => if hasRoot && r3.isEmpty then ['/', '/'] else c0 :: r3.reverse

/-- Length of the common leading run of equal segments. -/
def commonPrefixLen : List (List Char) → List (List Char) → Nat
  | a :: as, b :: bs => if a = b then commonPrefixLen as bs + 1 else 0
  | _, _ => 0

/-- Node `path.relative(f, t)` (POSIX) for absolute `f`, `t`: both are
resolved, the common segment run is dropped, and one `..` is emitted per
remaining segment of `f`. -/
def relativePosix (f t : List Char) : List Char :=
  let fs := pathSegs f
  let ts := pathSegs t
  if fs = ts then []
  else
    let c := commonPrefixLen fs ts
    joinSegs (List.replicate (fs.length - c) ['.', '.'] ++ ts.drop c)

/-! ## Output-path validator (`src/validators/path.ts`) -/

structure PathValidationResult where
  valid : Bool
  path : Option String := none
  error : Option String := none
deriving DecidableEq

structure PathConfig where
  allowedOutputDirs : List String
  defaultOutDir : String

/-- The injected `realpath` capability: the canonical symlink-free form of
an existing path, or `none` when `fs.realpath` throws (path missing). -/
def RealPathFn : Type :=
  String → Option String

/-- The resolved form of one allowed directory (source lines 73-79):
`fs.realpath`, falling back to `resolve(allowedDir)` when it does not
exist (the repository's allowed directories are absolute). -/
def resolvedAllowed (fsys : RealPathFn) (allowedDir : String) : String :=
  match fsys allowedDir with
  | some r => r
  | none => String.mk (resolveAbs allowedDir.data)

/-- The per-directory containment test of the allowed-directory loop
(source lines 81-86). -/
def dirAccepts (fsys : RealPathFn) (realPath allowedDir : String) : Bool :=
  let realAllowedDir := resolvedAllowed fsys allowedDir
  let relativePath := relativePosix realAllowedDir.data realPath.data
  !(beginsWith ['.', '.'] relativePath) && !(beginsWith ['/'] relativePath)

/-- The `for (const allowedDir of config.allowedOutputDirs)` loop (source
lines 70-93): the first accepting directory validates the resolved path,
and falling off the end rejects. -/
def checkAllowedDirs (fsys : RealPathFn) (realPath : String) :
    List String → PathValidationResult
  | [] =>
    { valid := false,
      error := some "Output path must be within allowed directories (~/Desktop/Screenshots, ~/Downloads, ~/Documents, or /tmp). Symlinks to other locations are not permitted." }
  | allowedDir :: rest =>
    if dirAccepts fsys realPath allowedDir then
      { valid := true, path := some realPath }
    else checkAllowedDirs fsys realPath rest

/-- The absolute target path of a custom path (source lines 42-48):
absolute inputs are resolved as-is, relative inputs against
`defaultOutDir`. -/
def targetPathOf (cp : String) (config : PathConfig) : List Char :=
  if beginsWith ['/'] cp.data then resolveAbs cp.data
  else resolve2 config.defaultOutDir.data cp.data

/-- The symlink-resolution of the target (source lines 52-68): the full
path if it exists, otherwise the resolved parent re-joined with the file
name, otherwise failure. -/
def resolveTargetPath (fsys : RealPathFn) (targetPath : List Char) : Option String :=
  match fsys (String.mk targetPath) with
  | some realPath => some realPath
  | none =>
    let parentDir := dirnameL targetPath
    let fileName := targetPath.drop (parentDir.length + 1)
    match fsys (String.mk parentDir) with
    | some realParent => some (String.mk (joinPosix realParent.data fileName))
    | none => none

/-- `validateOutputPath` (source lines 24-94).  The `realpath` capability
is the injected argument; totality models the policy that all failures are
structured results. -/
def validateOutputPath (customPath : Option String) (defaultName : String)
    (config : PathConfig) (fsys : RealPathFn) : PathValidationResult :=
  match customPath with
  | none =>
    { valid := true,
      path := some (String.mk (joinPosix config.defaultOutDir.data defaultName.data)) }
  | some cp =>
    if (jsTrim cp.data).isEmpty then
      { valid := true,
        path := some (String.mk (joinPosix config.defaultOutDir.data defaultName.data)) }
    else if containsSeq ['\x00'] cp.data || containsSeq ['%', '0', '0'] cp.data then
      { valid := false, error := some "Path contains null bytes" }
    else
      let targetPath := targetPathOf cp config
      match resolveTargetPath fsys targetPath with
      | some realPath => checkAllowedDirs fsys realPath config.allowedOutputDirs
      | none =>
        { valid := false,
          error := some ("Parent directory does not exist: " ++ String.mk (dirnameL targetPath)) }

/-! ## Spec-side definitions (stated in the spec's words, for refinement
comparisons against the source-derived definitions above) -/

/-- The numeric value of the IPv4 address `a.b.c.d`. -/
def ipNum (a b c d : Nat) : Nat :=
  ((a * 256 + b) * 256 + c) * 256 + d

/-- Membership of `n` in the CIDR block of `size` addresses starting at
`lo`. -/
def inRange (n lo size : Nat) : Prop :=
  lo ≤ n ∧ n < lo + size

/-- The spec's IPv4 block list, as numeric CIDR ranges: loopback
`127.0.0.0/8`, private `10.0.0.0/8`, `172.16.0.0/12`, `192.168.0.0/16`,
link-local `169.254.0.0/16`, this-network `0.0.0.0/8`, shared/CGNAT
`100.64.0.0/10`, benchmarking `198.18.0.0/15`, and the broadcast address
`255.255.255.255`. -/
def ipv4BlockedSpec (n : Nat) : Prop :=
  inRange n (ipNum 127 0 0 0) 16777216 ∨
  inRange n (ipNum 10 0 0 0) 16777216 ∨
  inRange n (ipNum 172 16 0 0) 1048576 ∨
  inRange n (ipNum 192 168 0 0) 65536 ∨
  inRange n (ipNum 169 254 0 0) 65536 ∨
  inRange n (ipNum 0 0 0 0) 16777216 ∨
  inRange n (ipNum 100 64 0 0) 4194304 ∨
  inRange n (ipNum 198 18 0 0) 131072 ∨
  n = ipNum 255 255 255 255

/-- The block classification applied by the DNS-scan loop to one resolved
family-tagged address. -/
def blockedLookup (a : LookupAddress) : Bool :=
  if a.family = 4 then (isBlockedIPv4 a.address).blocked
  else (isBlockedIPv6 a.address).blocked

/-- The spec's containment relation on resolved paths: the resolved target
equals, or is a descendant of, the resolved directory (its normalized
segments extend the directory's). -/
def descendantOrEqual (dir target : String) : Bool :=
  (pathSegs target.data).take (pathSegs dir.data).length == pathSegs dir.data

/-- The extra condition the code's `startsWith('..')` test actually
imposes beyond descendant-or-equal: the first segment of the target below
the directory must not itself begin with two dots. -/
def firstExtraSegOk (dir target : String) : Bool :=
  match (pathSegs target.data).drop (pathSegs dir.data).length with
  | [] => true
  | g :: _ => !(beginsWith ['.', '.'] g)

/-! # Theorems -/

/-! ## String-splitting support lemmas -/

theorem splitSep_exists (sep : Char) (l : List Char) :
    ∃ g gs, splitSep sep l = g :: gs := by
  induction l with
  | nil => exact ⟨[], [], rfl⟩
  | cons c rest ih =>
    obtain ⟨g, gs, h⟩ := ih
    by_cases hc : c = sep
    · exact ⟨[], g :: gs, by simp [splitSep, h, hc]⟩
    · exact ⟨c :: g, gs, by simp [splitSep, h, hc]⟩

theorem splitSep_cons_sep (sep : Char) (l : List Char) :
    splitSep sep (sep :: l) = [] :: splitSep sep l := by
  obtain ⟨g, gs, h⟩ := splitSep_exists sep l
  simp [splitSep, h]

theorem splitSep_no_sep (sep : Char) (l : List Char) (h : sep ∉ l) :
    splitSep sep l = [l] := by
  induction l with
  | nil => rfl
  | cons c rest ih =>
    have hc : ¬ c = sep := fun hc => h (hc ▸ List.mem_cons_self c rest)
    have hr := ih (fun hm => h (List.mem_cons_of_mem c hm))
    simp [splitSep, hr, hc]

theorem splitSep_append_sep (sep : Char) (g rest : List Char) (h : sep ∉ g) :
    splitSep sep (g ++ sep :: rest) = g :: splitSep sep rest := by
  induction g with
  | nil => simpa using splitSep_cons_sep sep rest
  | cons c g' ih =>
    have hc : ¬ c = sep := fun hc => h (hc ▸ List.mem_cons_self c g')
    have hr := ih (fun hm => h (List.mem_cons_of_mem c hm))
    simp [splitSep, hr, hc]

theorem mem_splitSep (sep c : Char) (l : List Char) (hc : c ∈ l) (hne : c ≠ sep) :
    ∃ g ∈ splitSep sep l, c ∈ g := by
  induction l with
  | nil => simp at hc
  | cons x rest ih =>
    obtain ⟨g, gs, h⟩ := splitSep_exists sep rest
    by_cases hx : x = sep
    · have hcr : c ∈ rest := by
        rcases List.mem_cons.mp hc with rfl | hm
        · exact absurd hx hne
        · exact hm
      obtain ⟨g', hg', hcg'⟩ := ih hcr
      refine ⟨g', ?_, hcg'⟩
      rw [show splitSep sep (x :: rest) = [] :: g :: gs by simp [splitSep, h, hx]]
      rw [h] at hg'
      exact List.mem_cons_of_mem [] hg'
    · rcases List.mem_cons.mp hc with rfl | hm
      · exact ⟨c :: g, by simp [splitSep, h, hx], List.mem_cons_self c g⟩
      · obtain ⟨g', hg', hcg'⟩ := ih hm
        rw [h] at hg'
        rcases List.mem_cons.mp hg' with rfl | hg''
        · exact ⟨x :: g', by simp [splitSep, h, hx], List.mem_cons_of_mem x hcg'⟩
        · exact ⟨g', by simp [splitSep, h, hx]; exact Or.inr hg'', hcg'⟩

/-- Every character of a string accepted by the dotted-quad pattern is a
decimal digit or a dot. -/
theorem parseQuad_chars (l : List Char) (h : (parseQuad l).isSome = true) :
    ∀ c ∈ l, isDigitChar c = true ∨ c = '.' := by
  intro c hc
  by_cases hdot : c = '.'
  · exact Or.inr hdot
  · refine Or.inl ?_
    obtain ⟨g, hg, hcg⟩ := mem_splitSep '.' c l hc hdot
    simp only [parseQuad] at h
    match hsp : splitSep '.' l with
    | [g1, g2, g3, g4] =>
      rw [hsp] at h hg
      by_cases hok : (digitGroupOk g1 && digitGroupOk g2 &&
          digitGroupOk g3 && digitGroupOk g4) = true
      · simp only [Bool.and_eq_true] at hok
        simp only [List.mem_cons, List.not_mem_nil, or_false] at hg
        have hgok : digitGroupOk g = true := by
          rcases hg with rfl | rfl | rfl | rfl
          · exact hok.1.1.1
          · exact hok.1.1.2
          · exact hok.1.2
          · exact hok.2
        simp only [digitGroupOk, Bool.and_eq_true, List.all_eq_true] at hgok
        exact hgok.2 c hcg
      · simp [hok] at h
    | [] => rw [hsp] at h; simp at h
    | [_] => rw [hsp] at h; simp at h
    | [_, _] => rw [hsp] at h; simp at h
    | [_, _, _] => rw [hsp] at h; simp at h
    | _ :: _ :: _ :: _ :: _ :: _ => rw [hsp] at h; simp at h

theorem parseQuad_none_of_colon (l : List Char) (h : ':' ∈ l) :
    parseQuad l = none := by
  by_cases hp : (parseQuad l).isSome = true
  · rcases parseQuad_chars l hp ':' h with hd | hd
    · simp [isDigitChar] at hd
    · simp at hd
  · simpa using hp


/-! ## Concurrency gate -/

theorem gateInv_step (capacity : Nat) (t : GateTrace) (op : GateOp)
    (hInv : GateInv capacity t) (hv : op = .release → 0 < t.outstanding) :
    GateInv capacity (stepOp t op) := by
  obtain ⟨h1, h2, h3⟩ := hInv
  cases op with
  | acquire id =>
    by_cases hp : 0 < t.state.permits
    · have hw : t.state.waiting = [] := by
        by_contra hne
        exact absurd (h2 hne) (by omega)
      simp only [stepOp, Semaphore.acquireStep, if_pos hp, GateInv]
      refine ⟨by omega, ?_, by simpa using h3⟩
      intro hne
      exact absurd hw hne
    · simp only [stepOp, Semaphore.acquireStep, if_neg hp, GateInv]
      refine ⟨by omega, by omega, ?_⟩
      simp only [h3, List.append_assoc]
  | tryAcquire =>
    by_cases hp : 0 < t.state.permits
    · have hw : t.state.waiting = [] := by
        by_contra hne
        exact absurd (h2 hne) (by omega)
      simp only [stepOp, Semaphore.tryAcquire, if_pos hp, GateInv]
      refine ⟨by omega, ?_, by simpa using h3⟩
      intro hne
      exact absurd hw hne
    · simp only [stepOp, Semaphore.tryAcquire, if_neg hp, GateInv]
      exact ⟨h1, h2, h3⟩
  | release =>
    have hout : 0 < t.outstanding := hv rfl
    match hw : t.state.waiting with
    | w :: ws =>
      have hp0 : t.state.permits = 0 := h2 (by simp [hw])
      simp only [stepOp, Semaphore.release, hw, GateInv]
      refine ⟨by simpa [hp0] using h1, fun _ => hp0, ?_⟩
      simp only [h3, hw, List.append_assoc, List.singleton_append]
    | [] =>
      simp only [stepOp, Semaphore.release, hw, GateInv]
      refine ⟨by omega, by simp, ?_⟩
      simpa [hw] using h3

theorem gateInv_run (capacity : Nat) (t : GateTrace) (ops : List GateOp)
    (hInv : GateInv capacity t) (hv : validOps t ops = true) :
    GateInv capacity (runOps t ops) := by
  induction ops generalizing t with
  | nil => exact hInv
  | cons op rest ih =>
    simp only [validOps, Bool.and_eq_true] at hv
    have hstep : GateInv capacity (stepOp t op) := by
      refine gateInv_step capacity t op hInv ?_
      intro hop
      subst hop
      simpa using hv.1
    exact ih (stepOp t op) hstep hv.2

theorem gateInv_start (capacity : Nat) : GateInv capacity (GateTrace.start capacity) := by
  refine ⟨by simp [GateTrace.start, Semaphore.init], ?_, by simp [GateTrace.start, Semaphore.init]⟩
  intro h
  exact absurd rfl h

/-- C7: for every operation sequence in which each `release` matches a
prior successful `acquire`/`tryAcquire` (trace validity), the outstanding
acquired-but-unreleased units never exceed the initial capacity, the
available counter stays within `0 ≤ available ≤ capacity` and is `0`
whenever the waiter queue is non-empty, and waiters are woken in strict
arrival (FIFO) order: the wake list followed by the remaining queue is
exactly the arrival list. -/
theorem semaphore_invariants (capacity : Nat) (ops : List GateOp)
    (hv : validOps (GateTrace.start capacity) ops = true) :
    (runOps (GateTrace.start capacity) ops).outstanding ≤ capacity ∧
    Semaphore.available (runOps (GateTrace.start capacity) ops).state ≤ capacity ∧
    ((runOps (GateTrace.start capacity) ops).state.waiting ≠ [] →
      Semaphore.available (runOps (GateTrace.start capacity) ops).state = 0) ∧
    (runOps (GateTrace.start capacity) ops).enqueued =
      (runOps (GateTrace.start capacity) ops).resumed ++
        (runOps (GateTrace.start capacity) ops).state.waiting := by
  have h := gateInv_run capacity (GateTrace.start capacity) ops (gateInv_start capacity) hv
  obtain ⟨h1, h2, h3⟩ := h
  exact ⟨by omega, by simp only [Semaphore.available]; omega,
    fun hne => by simpa [Semaphore.available] using h2 hne, h3⟩

/-- Witness for C7: a concrete capacity-1 trace with three queued waiters
woken in FIFO order. -/
theorem semaphore_invariants_witness :
    validOps (GateTrace.start 1) [.acquire 10, .acquire 11, .acquire 12, .tryAcquire,
      .release, .release, .release] = true ∧
    (runOps (GateTrace.start 1) [.acquire 10, .acquire 11, .acquire 12, .tryAcquire,
      .release, .release, .release]).outstanding ≤ 1 := by
  refine ⟨by decide, ?_⟩
  exact (semaphore_invariants 1 [.acquire 10, .acquire 11, .acquire 12, .tryAcquire,
    .release, .release, .release] (by decide)).1

/-- C8: `tryAcquire` consumes a permit and returns `true` exactly when one
is available and otherwise returns `false` without side effect; `release`
hands the permit directly to the longest-waiting (front) caller without
incrementing the counter when the queue is non-empty, and increments the
counter otherwise; and with capacity 1, `tryAcquire` yields `true` then
`false`, and `true` again after a `release`. -/
theorem semaphore_tryAcquire_release (s : GateState) :
    (0 < s.permits →
      Semaphore.tryAcquire s = (true, { s with permits := s.permits - 1 })) ∧
    (s.permits = 0 → Semaphore.tryAcquire s = (false, s)) ∧
    (∀ w ws, s.waiting = w :: ws →
      Semaphore.release s = (some w, { s with waiting := ws })) ∧
    (s.waiting = [] →
      Semaphore.release s = (none, { s with permits := s.permits + 1 })) ∧
    (Semaphore.tryAcquire (Semaphore.init 1) = (true, ⟨0, []⟩) ∧
      Semaphore.tryAcquire ⟨0, []⟩ = (false, ⟨0, []⟩) ∧
      Semaphore.release ⟨0, []⟩ = (none, ⟨1, []⟩) ∧
      Semaphore.tryAcquire ⟨1, []⟩ = (true, ⟨0, []⟩)) := by
  refine ⟨?_, ?_, ?_, ?_, by decide⟩
  · intro hp
    simp [Semaphore.tryAcquire, hp]
  · intro hp
    simp [Semaphore.tryAcquire, hp]
  · intro w ws hw
    simp [Semaphore.release, hw]
  · intro hw
    simp [Semaphore.release, hw]

/-- Witness for C8 at a concrete state with permits and a waiter queue. -/
theorem semaphore_tryAcquire_release_witness :
    Semaphore.tryAcquire ⟨2, []⟩ = (true, ⟨1, []⟩) ∧
    Semaphore.release ⟨0, [7, 8]⟩ = (some 7, ⟨0, [8]⟩) := by
  refine ⟨?_, ?_⟩
  · exact (semaphore_tryAcquire_release ⟨2, []⟩).1 (by decide)
  · exact (semaphore_tryAcquire_release ⟨0, [7, 8]⟩).2.2.1 7 [8] rfl

/-! ## Output-path validator: defaults, null bytes, missing parent (C6) -/

theorem mem_dropWhile_of_not (p : Char → Bool) (l : List Char) (c : Char)
    (hc : c ∈ l) (hp : p c = false) : c ∈ l.dropWhile p := by
  induction l with
  | nil => simp at hc
  | cons x rest ih =>
    by_cases hx : p x = true
    · rw [List.dropWhile_cons_of_pos hx]
      rcases List.mem_cons.mp hc with rfl | hm
      · rw [hp] at hx
        exact absurd hx (by simp)
      · exact ih hm
    · rw [List.dropWhile_cons_of_neg hx]
      exact hc

theorem jsTrim_ne_nil (l : List Char) (c : Char) (hc : c ∈ l)
    (hp : jsWhitespace c = false) : (jsTrim l).isEmpty = false := by
  have h1 : c ∈ l.dropWhile jsWhitespace := mem_dropWhile_of_not _ _ _ hc hp
  have h2 : c ∈ (l.dropWhile jsWhitespace).reverse := List.mem_reverse.mpr h1
  have h3 : c ∈ ((l.dropWhile jsWhitespace).reverse.dropWhile jsWhitespace) :=
    mem_dropWhile_of_not _ _ _ h2 hp
  have h4 : c ∈ jsTrim l := List.mem_reverse.mpr h3
  rcases h5 : jsTrim l with _ | _
  · rw [h5] at h4
    simp at h4
  · simp

theorem head_mem_of_containsSeq (c : Char) (pat l : List Char)
    (h : containsSeq (c :: pat) l = true) : c ∈ l := by
  induction l with
  | nil => simp [containsSeq] at h
  | cons x rest ih =>
    simp only [containsSeq, Bool.or_eq_true] at h
    rcases h with h | h
    · simp only [List.isPrefixOf, Bool.and_eq_true, beq_iff_eq] at h
      rw [h.1]
      exact List.mem_cons_self x rest
    · exact List.mem_cons_of_mem x (ih h)

theorem nullish_not_blank (cp : String)
    (hnull : (containsSeq ['\x00'] cp.data || containsSeq ['%', '0', '0'] cp.data) = true) :
    (jsTrim cp.data).isEmpty = false := by
  rcases Bool.or_eq_true _ _ |>.mp hnull with h | h
  · exact jsTrim_ne_nil cp.data '\x00' (head_mem_of_containsSeq _ _ _ h) (by decide)
  · exact jsTrim_ne_nil cp.data '%' (head_mem_of_containsSeq _ _ _ h) (by decide)

/-- C6: an absent or blank custom path always yields the default directory
joined with the default file name; a custom path containing a raw or
percent-encoded null byte is rejected; and when neither the target path
nor its parent directory real-path-resolves, the validator fails closed
with an error naming the missing parent directory. -/
theorem validateOutputPath_defaults (defaultName : String) (config : PathConfig)
    (fsys : RealPathFn) (cp : String) :
    (validateOutputPath none defaultName config fsys =
      { valid := true,
        path := some (String.mk (joinPosix config.defaultOutDir.data defaultName.data)) }) ∧
    ((jsTrim cp.data).isEmpty = true →
      validateOutputPath (some cp) defaultName config fsys =
        { valid := true,
          path := some (String.mk (joinPosix config.defaultOutDir.data defaultName.data)) }) ∧
    ((containsSeq ['\x00'] cp.data || containsSeq ['%', '0', '0'] cp.data) = true →
      validateOutputPath (some cp) defaultName config fsys =
        { valid := false, error := some "Path contains null bytes" }) ∧
    ((jsTrim cp.data).isEmpty = false →
      (containsSeq ['\x00'] cp.data || containsSeq ['%', '0', '0'] cp.data) = false →
      fsys (String.mk (targetPathOf cp config)) = none →
      fsys (String.mk (dirnameL (targetPathOf cp config))) = none →
      validateOutputPath (some cp) defaultName config fsys =
        { valid := false,
          error := some ("Parent directory does not exist: " ++
            String.mk (dirnameL (targetPathOf cp config))) }) := by
  refine ⟨rfl, ?_, ?_, ?_⟩
  · intro hblank
    simp only [validateOutputPath]
    rw [if_pos hblank]
  · intro hnull
    have hblank := nullish_not_blank cp hnull
    simp only [validateOutputPath]
    rw [if_neg (by simp [hblank]), if_pos hnull]
  · intro hblank hnull hfs hfp
    simp only [validateOutputPath]
    rw [if_neg (by simp [hblank]), if_neg (by simp [hnull])]
    simp only [resolveTargetPath, hfs, hfp]

/-- Witness for C6: the blank, null-byte and missing-parent clauses at
concrete inputs. -/
theorem validateOutputPath_defaults_witness :
    validateOutputPath (some "  ") "shot.png" ⟨["/tmp"], "/d"⟩ (fun _ => none) =
      { valid := true, path := some "/d/shot.png" } ∧
    validateOutputPath (some "a%00b") "shot.png" ⟨["/tmp"], "/d"⟩ (fun p => some p) =
      { valid := false, error := some "Path contains null bytes" } ∧
    validateOutputPath (some "/nope/x.png") "shot.png" ⟨["/tmp"], "/d"⟩ (fun _ => none) =
      { valid := false, error := some "Parent directory does not exist: /nope" } := by
  refine ⟨?_, ?_, ?_⟩
  · exact (validateOutputPath_defaults "shot.png" ⟨["/tmp"], "/d"⟩ (fun _ => none) "  ").2.1
      (by decide)
  · exact (validateOutputPath_defaults "shot.png" ⟨["/tmp"], "/d"⟩ (fun p => some p)
      "a%00b").2.2.1 (by decide)
  · exact (validateOutputPath_defaults "shot.png" ⟨["/tmp"], "/d"⟩ (fun _ => none)
      "/nope/x.png").2.2.2 (by decide) (by decide) rfl rfl

/-! ## Output-path validator: containment on resolved paths (C5) -/

theorem splitSep_seg_no_sep (sep : Char) (l : List Char) :
    ∀ g ∈ splitSep sep l, sep ∉ g := by
  induction l with
  | nil =>
    intro g hg
    simp only [splitSep, List.mem_singleton] at hg
    simp [hg]
  | cons c rest ih =>
    obtain ⟨g0, gs0, h0⟩ := splitSep_exists sep rest
    intro g hg
    by_cases hc : c = sep
    · rw [show splitSep sep (c :: rest) = [] :: g0 :: gs0 by simp [splitSep, h0, hc]] at hg
      rcases List.mem_cons.mp hg with rfl | hg'
      · simp
      · exact ih g (h0 ▸ hg')
    · rw [show splitSep sep (c :: rest) = (c :: g0) :: gs0 by simp [splitSep, h0, hc]] at hg
      rcases List.mem_cons.mp hg with rfl | hg'
      · intro hm
        rcases List.mem_cons.mp hm with rfl | hm'
        · exact hc rfl
        · exact ih g0 (h0 ▸ List.mem_cons_self g0 gs0) hm'
      · exact ih g (h0 ▸ List.mem_cons_of_mem g0 hg')

/-- The segments a normalized absolute path consists of: non-empty, not
`.`, not `..`, and free of separators. -/
def goodSeg (g : List Char) : Prop :=
  g ≠ [] ∧ g ≠ ['.'] ∧ g ≠ ['.', '.'] ∧ '/' ∉ g

theorem stepSeg_good (stack : List (List Char)) (s : List Char)
    (hstack : ∀ g ∈ stack, goodSeg g) (hs : '/' ∉ s) :
    ∀ g ∈ stepSeg stack s, goodSeg g := by
  intro g hg
  unfold stepSeg at hg
  by_cases h1 : (s = [] || s = ['.']) = true
  · rw [if_pos h1] at hg
    exact hstack g hg
  · rw [if_neg h1] at hg
    by_cases h2 : s = ['.', '.']
    · rw [if_pos h2] at hg
      exact hstack g (List.mem_of_mem_tail hg)
    · rw [if_neg h2] at hg
      rcases List.mem_cons.mp hg with rfl | hg'
      · simp only [Bool.or_eq_true, decide_eq_true_eq] at h1
        push_neg at h1
        exact ⟨h1.1, h1.2, h2, hs⟩
      · exact hstack g hg'

theorem foldl_stepSeg_good (segs : List (List Char)) (stack : List (List Char))
    (hstack : ∀ g ∈ stack, goodSeg g) (hsegs : ∀ g ∈ segs, '/' ∉ g) :
    ∀ g ∈ segs.foldl stepSeg stack, goodSeg g := by
  induction segs generalizing stack with
  | nil => exact hstack
  | cons s rest ih =>
    exact ih (stepSeg stack s)
      (stepSeg_good stack s hstack (hsegs s (List.mem_cons_self s rest)))
      (fun g hg => hsegs g (List.mem_cons_of_mem s hg))

theorem pathSegs_good (l : List Char) : ∀ g ∈ pathSegs l, goodSeg g := by
  intro g hg
  unfold pathSegs at hg
  rw [List.mem_reverse] at hg
  exact foldl_stepSeg_good (splitSep '/' l) [] (by simp)
    (splitSep_seg_no_sep '/' l) g hg

theorem cpl_of_prefix (A T : List (List Char)) (h : T.take A.length = A) :
    commonPrefixLen A T = A.length := by
  induction A generalizing T with
  | nil => rfl
  | cons a as ih =>
    cases T with
    | nil => simp at h
    | cons t ts =>
      simp only [List.length_cons, List.take_succ_cons, List.cons.injEq] at h
      obtain ⟨rfl, h2⟩ := h
      simp [commonPrefixLen, ih ts h2]

theorem cpl_lt_of_not_prefix (A T : List (List Char)) (h : T.take A.length ≠ A) :
    commonPrefixLen A T < A.length := by
  induction A generalizing T with
  | nil => simp at h
  | cons a as ih =>
    cases T with
    | nil => simp [commonPrefixLen]
    | cons t ts =>
      by_cases hat : a = t
      · subst hat
        have h' : ts.take as.length ≠ as := by
          intro he
          exact h (by simp [he])
        have hlt := ih ts h'
        simp [commonPrefixLen]
        omega
      · simp only [commonPrefixLen, if_neg hat, List.length_cons]
        omega

theorem beginsWith_dots_append (g r : List Char) (hne : g ≠ []) :
    beginsWith ['.', '.'] (g ++ '/' :: r) = beginsWith ['.', '.'] g := by
  match g with
  | [] => exact absurd rfl hne
  | [c] =>
    show (['.', '.'].isPrefixOf (c :: '/' :: r)) = (['.', '.'].isPrefixOf [c])
    simp [List.isPrefixOf]
  | c1 :: c2 :: t =>
    show (['.', '.'].isPrefixOf (c1 :: c2 :: (t ++ '/' :: r))) =
      (['.', '.'].isPrefixOf (c1 :: c2 :: t))
    simp [List.isPrefixOf]

theorem beginsWith_slash_of_seg (g r : List Char) (hne : g ≠ []) (hns : '/' ∉ g) :
    beginsWith ['/'] (g ++ r) = false := by
  match g with
  | [] => exact absurd rfl hne
  | c :: t =>
    show (['/'].isPrefixOf (c :: (t ++ r))) = false
    have hc : ¬ ('/' = c) := fun h => hns (h ▸ List.mem_cons_self c t)
    simp [List.isPrefixOf, hc]

theorem joinSegs_cons (g : List Char) (gs : List (List Char)) :
    joinSegs (g :: gs) = (if gs.isEmpty then g else g ++ '/' :: joinSegs gs) := by
  cases gs with
  | nil => rfl
  | cons y ys => rfl

/-- The per-directory test of the source loop coincides with
descendant-or-equality *plus* the first-extra-segment condition that the
`startsWith('..')` check additionally imposes. -/
theorem dirAccepts_iff (fsys : RealPathFn) (realPath allowedDir : String) :
    dirAccepts fsys realPath allowedDir = true ↔
      (descendantOrEqual (resolvedAllowed fsys allowedDir) realPath = true ∧
       firstExtraSegOk (resolvedAllowed fsys allowedDir) realPath = true) := by
  simp only [dirAccepts, relativePosix, descendantOrEqual, firstExtraSegOk]
  set A := pathSegs (resolvedAllowed fsys allowedDir).data with hA
  set T := pathSegs realPath.data with hT
  by_cases hAT : A = T
  · rw [if_pos hAT, hAT]
    simp [beginsWith, List.isPrefixOf, List.take_length, List.drop_length]
  · rw [if_neg hAT]
    by_cases hpre : T.take A.length = A
    · have hc : commonPrefixLen A T = A.length := cpl_of_prefix A T hpre
      rw [hc, Nat.sub_self, List.replicate_zero, List.nil_append]
      have hdrop : T.drop A.length ≠ [] := by
        intro hd
        exact hAT (by
          have := List.take_append_drop A.length T
          rw [hd, List.append_nil] at this
          rw [← this, hpre])
      match hD : T.drop A.length with
      | [] => exact absurd hD hdrop
      | g :: gs =>
        have hgood : goodSeg g := pathSegs_good realPath.data g
          (by rw [← hT]; exact List.drop_subset _ _ (hD ▸ List.mem_cons_self g gs))
        have hgs_begin :
            beginsWith ['.', '.'] (joinSegs (g :: gs)) = beginsWith ['.', '.'] g := by
          rw [joinSegs_cons]
          cases gs with
          | nil => simp
          | cons y ys =>
            simp only [List.isEmpty_cons, if_false]
            exact beginsWith_dots_append g _ hgood.1
        have hslash : beginsWith ['/'] (joinSegs (g :: gs)) = false := by
          rw [joinSegs_cons]
          cases gs with
          | nil =>
            simp only [List.isEmpty_nil, if_true]
            have := beginsWith_slash_of_seg g [] hgood.1 hgood.2.2.2
            simpa using this
          | cons y ys =>
            simp only [List.isEmpty_cons, if_false]
            exact beginsWith_slash_of_seg g _ hgood.1 hgood.2.2.2
        rw [hgs_begin, hslash]
        simp only [Bool.not_false, Bool.and_true, Bool.not_eq_true']
        constructor
        · intro hb
          exact ⟨by simp [hpre], hb⟩
        · intro ⟨_, hb⟩
          exact hb
    · have hc : commonPrefixLen A T < A.length := cpl_lt_of_not_prefix A T hpre
      have hrep : A.length - commonPrefixLen A T =
          (A.length - commonPrefixLen A T - 1) + 1 := by omega
      rw [hrep, List.replicate_succ, List.cons_append]
      have hbeg : beginsWith ['.', '.']
          (joinSegs (['.', '.'] :: (List.replicate (A.length - commonPrefixLen A T - 1)
            ['.', '.'] ++ T.drop (commonPrefixLen A T)))) = true := by
        rw [joinSegs_cons]
        split
        · decide
        · rw [beginsWith_dots_append ['.', '.'] _ (by simp)]
          decide
      rw [hbeg]
      simp only [Bool.not_true, Bool.false_and, Bool.false_eq_true, false_iff, not_and]
      intro hd
      exact absurd (by simpa using hd) hpre

theorem checkAllowedDirs_spec (fsys : RealPathFn) (realPath : String)
    (dirs : List String) :
    ((checkAllowedDirs fsys realPath dirs).valid = true ↔
      ∃ d ∈ dirs, dirAccepts fsys realPath d = true) ∧
    ((checkAllowedDirs fsys realPath dirs).valid = true →
      (checkAllowedDirs fsys realPath dirs).path = some realPath) := by
  induction dirs with
  | nil => simp [checkAllowedDirs]
  | cons d rest ih =>
    by_cases hd : dirAccepts fsys realPath d = true
    · simp [checkAllowedDirs, hd]
    · simp only [checkAllowedDirs, hd, Bool.false_eq_true, if_false]
      constructor
      · rw [ih.1]
        constructor
        · intro ⟨x, hx, ha⟩
          exact ⟨x, List.mem_cons_of_mem d hx, ha⟩
        · intro ⟨x, hx, ha⟩
          rcases List.mem_cons.mp hx with rfl | hx'
          · exact absurd ha hd
          · exact ⟨x, hx', ha⟩
      · exact ih.2

/-- C5 (amended): for a non-blank, null-free custom path whose real-path
resolution (full path, or parent fallback) succeeds with `realPath`, the
result is valid exactly when some resolved allowed directory's segments
are a prefix of the resolved target's segments *and* the first target
segment beyond the allowed directory does not itself begin with two dots
(the extra restriction the code's `startsWith('..')` test imposes);
containment is decided only on resolved forms, and the returned path is
the resolved path, never the raw input. -/
theorem validateOutputPath_containment (cp defaultName : String) (config : PathConfig)
    (fsys : RealPathFn) (realPath : String)
    (hblank : (jsTrim cp.data).isEmpty = false)
    (hnull : (containsSeq ['\x00'] cp.data || containsSeq ['%', '0', '0'] cp.data) = false)
    (hres : resolveTargetPath fsys (targetPathOf cp config) = some realPath) :
    ((validateOutputPath (some cp) defaultName config fsys).valid = true ↔
      ∃ d ∈ config.allowedOutputDirs,
        descendantOrEqual (resolvedAllowed fsys d) realPath = true ∧
        firstExtraSegOk (resolvedAllowed fsys d) realPath = true) ∧
    ((validateOutputPath (some cp) defaultName config fsys).valid = true →
      (validateOutputPath (some cp) defaultName config fsys).path = some realPath) := by
  have hred : validateOutputPath (some cp) defaultName config fsys =
      checkAllowedDirs fsys realPath config.allowedOutputDirs := by
    simp only [validateOutputPath]
    rw [if_neg (by simp [hblank]), if_neg (by simp [hnull])]
    simp only [hres]
  rw [hred]
  obtain ⟨h1, h2⟩ := checkAllowedDirs_spec fsys realPath config.allowedOutputDirs
  refine ⟨?_, h2⟩
  rw [h1]
  constructor
  · intro ⟨d, hd, ha⟩
    exact ⟨d, hd, (dirAccepts_iff fsys realPath d).mp ha⟩
  · intro ⟨d, hd, ha⟩
    exact ⟨d, hd, (dirAccepts_iff fsys realPath d).mpr ha⟩

/-- Counterexample to C5 as stated: with an identity `realpath` capability
and allowed directory `/allowed`, the target `/allowed/..foo` resolves to
itself and *is* a descendant of the resolved allowed directory, yet the
validator rejects it (the `startsWith('..')` containment test also
rejects descendants whose first segment begins with two dots). -/
theorem validateOutputPath_descendant_rejected :
    resolveTargetPath (fun p => some p)
      (targetPathOf "/allowed/..foo" ⟨["/allowed"], "/allowed"⟩) = some "/allowed/..foo" ∧
    descendantOrEqual (resolvedAllowed (fun p => some p) "/allowed") "/allowed/..foo" = true ∧
    (validateOutputPath (some "/allowed/..foo") "shot.png" ⟨["/allowed"], "/allowed"⟩
      (fun p => some p)).valid = false := by
  refine ⟨rfl, by decide, by decide⟩

/-- Witness for the amended C5: a path inside `/tmp` is accepted with its
resolved form; `/etc/passwd` is outside every allowed directory and
rejected. -/
theorem validateOutputPath_containment_witness :
    (validateOutputPath (some "/tmp/x.png") "s" ⟨["/tmp"], "/d"⟩ (fun p => some p)).valid
      = true ∧
    (validateOutputPath (some "/etc/passwd") "s" ⟨["/tmp"], "/d"⟩ (fun p => some p)).valid
      = false := by
  constructor
  · exact (validateOutputPath_containment "/tmp/x.png" "s" ⟨["/tmp"], "/d"⟩
      (fun p => some p) "/tmp/x.png" (by decide) (by decide) rfl).1.mpr
      ⟨"/tmp", by decide, by decide, by decide⟩
  · have h := (validateOutputPath_containment "/etc/passwd" "s" ⟨["/tmp"], "/d"⟩
      (fun p => some p) "/etc/passwd" (by decide) (by decide) rfl).1
    match hb : (validateOutputPath (some "/etc/passwd") "s" ⟨["/tmp"], "/d"⟩
        (fun p => some p)).valid with
    | false => rfl
    | true =>
      obtain ⟨d, hd, hacc, _⟩ := h.mp hb
      rw [List.mem_singleton] at hd
      subst hd
      exact absurd hacc (by decide)

/-! ## Idempotence of the validators (C9) -/

/-- Counterexample to C9 as stated: with unchanged external state (a fixed
`realpath` capability under which `/a/sym` is a symlink to the canonical
file `/a/%00y`), validating `/a/sym` succeeds with resolved path
`/a/%00y`, yet re-validating that already-valid, already-resolved path
yields a different result — the null-byte check rejects the literal `%00`
in the resolved path's name — so re-validation is not idempotent. -/
theorem validators_idempotent_cex :
    validateOutputPath (some "/a/sym") "s" ⟨["/a"], "/a"⟩
        (fun p => if p = "/a/sym" then some "/a/%00y" else some p) =
      { valid := true, path := some "/a/%00y" } ∧
    validateOutputPath (some "/a/%00y") "s" ⟨["/a"], "/a"⟩
        (fun p => if p = "/a/sym" then some "/a/%00y" else some p) =
      { valid := false, error := some "Path contains null bytes" } ∧
    validateOutputPath (some "/a/%00y") "s" ⟨["/a"], "/a"⟩
        (fun p => if p = "/a/sym" then some "/a/%00y" else some p) ≠
      validateOutputPath (some "/a/sym") "s" ⟨["/a"], "/a"⟩
        (fun p => if p = "/a/sym" then some "/a/%00y" else some p) := by
  refine ⟨by decide, by decide, by decide⟩

/-- C9 (amended): both validators are pure functions of their input and
the injected capability, so two calls with unchanged external state are
identical; and re-validating the already-resolved path produced by a
valid custom-path validation (with the capability still fixing that
canonical path) returns the identical result *provided* the resolved path
contains no raw or percent-encoded null byte — a resolved name containing
the literal `%00` is accepted by the first call but rejected on
re-validation by the null-byte check. -/
theorem validators_idempotent
    (parseOutcome : UrlParseOutcome) (dns : DnsResolver)
    (customPath : Option String) (defaultName : String) (config : PathConfig)
    (fsys : RealPathFn) (cp r : String)
    (hblank0 : (jsTrim cp.data).isEmpty = false)
    (hprev : validateOutputPath (some cp) defaultName config fsys =
      { valid := true, path := some r, error := none })
    (hcanon : resolveAbs r.data = r.data)
    (hfs : fsys r = some r)
    (hnull : (containsSeq ['\x00'] r.data || containsSeq ['%', '0', '0'] r.data) = false) :
    validateUrl parseOutcome dns = validateUrl parseOutcome dns ∧
    validateOutputPath customPath defaultName config fsys =
      validateOutputPath customPath defaultName config fsys ∧
    validateOutputPath (some r) defaultName config fsys =
      validateOutputPath (some cp) defaultName config fsys := by
  refine ⟨rfl, rfl, ?_⟩
  by_cases hnull0 : (containsSeq ['\x00'] cp.data || containsSeq ['%', '0', '0'] cp.data) = true
  · rw [show validateOutputPath (some cp) defaultName config fsys =
        { valid := false, error := some "Path contains null bytes" } by
      simp only [validateOutputPath]
      rw [if_neg (by simp [hblank0]), if_pos hnull0]] at hprev
    simp at hprev
  · have hnull0' : (containsSeq ['\x00'] cp.data ||
        containsSeq ['%', '0', '0'] cp.data) = false := by simpa using hnull0
    have hfirst : validateOutputPath (some cp) defaultName config fsys =
        (match resolveTargetPath fsys (targetPathOf cp config) with
         | some rp => checkAllowedDirs fsys rp config.allowedOutputDirs
         | none =>
           { valid := false,
             error := some ("Parent directory does not exist: " ++
               String.mk (dirnameL (targetPathOf cp config))) }) := by
      simp only [validateOutputPath]
      rw [if_neg (by simp [hblank0]), if_neg (by simp [hnull0'])]
    match hrp : resolveTargetPath fsys (targetPathOf cp config) with
    | none =>
      simp only [hrp] at hfirst
      rw [hfirst] at hprev
      simp at hprev
    | some rp =>
      simp only [hrp] at hfirst
      rw [hfirst] at hprev
      have hpath := (checkAllowedDirs_spec fsys rp config.allowedOutputDirs).2
        (by rw [hprev])
      rw [hprev] at hpath
      have hrr : rp = r := (Option.some.inj hpath).symm
      rw [hrr] at hprev hfirst
      have hslash : '/' ∈ r.data := by
        rw [← hcanon]
        exact List.mem_cons_self '/' _
      have hblank2 : (jsTrim r.data).isEmpty = false :=
        jsTrim_ne_nil r.data '/' hslash (by decide)
      have hbegin : beginsWith ['/'] r.data = true := by
        rw [← hcanon]
        simp [resolveAbs, beginsWith, List.isPrefixOf]
      have htp : targetPathOf r config = r.data := by
        unfold targetPathOf
        rw [if_pos hbegin]
        exact hcanon
      have hres2 : resolveTargetPath fsys (targetPathOf r config) = some r := by
        rw [htp]
        unfold resolveTargetPath
        rw [show String.mk r.data = r from rfl, hfs]
      have hsecond : validateOutputPath (some r) defaultName config fsys =
          checkAllowedDirs fsys r config.allowedOutputDirs := by
        simp only [validateOutputPath]
        rw [if_neg (by simp [hblank2]), if_neg (by simp [hnull])]
        simp only [hres2]
      rw [hsecond, hfirst]

/-- Witness for C9 at a concrete path fixed by an identity `realpath`. -/
theorem validators_idempotent_witness :
    validateOutputPath (some "/tmp/a.png") "s" ⟨["/tmp"], "/d"⟩ (fun p => some p) =
      validateOutputPath (some "/tmp/a.png") "s" ⟨["/tmp"], "/d"⟩ (fun p => some p) :=
  (validators_idempotent .failure (fun _ => .error "") none "s" ⟨["/tmp"], "/d"⟩
    (fun p => some p) "/tmp/a.png" "/tmp/a.png" (by decide) (by decide) (by decide)
    rfl (by decide)).2.2

/-! ## IPv4 classifier -/

/-- C10: any string not matching the four-dotted-groups pattern passes
through `isBlockedIPv4` as not blocked, and no per-group `≤ 255` check is
performed: `"300.0.0.1"` matches the pattern yet is classified as not
blocked. -/
theorem isBlockedIPv4_passthrough :
    (∀ s : String, parseQuad s.data = none → isBlockedIPv4 s = { blocked := false }) ∧
    (parseQuad "300.0.0.1".data).isSome = true ∧
    isBlockedIPv4 "300.0.0.1" = { blocked := false } := by
  refine ⟨?_, by decide, by decide⟩
  intro s h
  simp [isBlockedIPv4, h]

/-- Witness for C10 on a non-IPv4-shaped string. -/
theorem isBlockedIPv4_passthrough_witness :
    isBlockedIPv4 "example.com" = { blocked := false } :=
  isBlockedIPv4_passthrough.1 "example.com" (by decide)

theorem blockedOctets_iff (a b c d : Nat) :
    (blockedOctets a b c d).blocked = true ↔
      (a = 127 ∨ a = 10 ∨ (a = 172 ∧ 16 ≤ b ∧ b ≤ 31) ∨ (a = 192 ∧ b = 168) ∨
        (a = 169 ∧ b = 254) ∨ a = 0 ∨ (a = 100 ∧ 64 ≤ b ∧ b ≤ 127) ∨
        (a = 198 ∧ (b = 18 ∨ b = 19)) ∨ (a = 255 ∧ b = 255 ∧ c = 255 ∧ d = 255)) := by
  simp only [blockedOctets]
  split_ifs with h1 h2 h3 h4 h5 h6 h7 h8 h9 <;> simp_all

set_option maxHeartbeats 1600000 in
theorem octets_spec_iff (a b c d : Nat)
    (ha : a ≤ 255) (hb : b ≤ 255) (hc : c ≤ 255) (hd : d ≤ 255) :
    (a = 127 ∨ a = 10 ∨ (a = 172 ∧ 16 ≤ b ∧ b ≤ 31) ∨ (a = 192 ∧ b = 168) ∨
      (a = 169 ∧ b = 254) ∨ a = 0 ∨ (a = 100 ∧ 64 ≤ b ∧ b ≤ 127) ∨
      (a = 198 ∧ (b = 18 ∨ b = 19)) ∨ (a = 255 ∧ b = 255 ∧ c = 255 ∧ d = 255)) ↔
      ipv4BlockedSpec (ipNum a b c d) := by
  simp only [ipv4BlockedSpec, inRange, ipNum]
  omega

/-- C2: on every dotted-quad string denoting an IPv4 address (all four
groups at most 255), `isBlockedIPv4` reports blocked exactly when the
address lies in one of the spec's CIDR ranges, and every listed
just-outside-the-boundary address is not blocked. -/
theorem isBlockedIPv4_ranges (s : String) (a b c d : Nat)
    (hp : parseQuad s.data = some (a, b, c, d))
    (ha : a ≤ 255) (hb : b ≤ 255) (hc : c ≤ 255) (hd : d ≤ 255) :
    ((isBlockedIPv4 s).blocked = true ↔ ipv4BlockedSpec (ipNum a b c d)) ∧
    isBlockedIPv4 "172.15.255.255" = { blocked := false } ∧
    isBlockedIPv4 "172.32.0.0" = { blocked := false } ∧
    isBlockedIPv4 "100.63.255.255" = { blocked := false } ∧
    isBlockedIPv4 "100.128.0.0" = { blocked := false } ∧
    isBlockedIPv4 "198.17.255.255" = { blocked := false } ∧
    isBlockedIPv4 "198.20.0.0" = { blocked := false } := by
  refine ⟨?_, by decide, by decide, by decide, by decide, by decide, by decide⟩
  rw [isBlockedIPv4, hp, blockedOctets_iff]
  exact octets_spec_iff a b c d ha hb hc hd

/-- Witness for C2 at `127.0.0.1` (blocked, inside `127.0.0.0/8`). -/
theorem isBlockedIPv4_ranges_witness :
    (isBlockedIPv4 "127.0.0.1").blocked = true := by
  have h := (isBlockedIPv4_ranges "127.0.0.1" 127 0 0 1 (by decide)
    (by decide) (by decide) (by decide) (by decide)).1
  refine h.mpr ?_
  refine Or.inl ?_
  refine ⟨by decide, by decide⟩

/-! ## IPv6 classifier (C3) -/

theorem ffffPrefix_ne_loopback (q : List Char) : "::ffff:".data ++ q ≠ "::1".data := by
  intro h
  have hl := congrArg List.length h
  rw [List.length_append] at hl
  have h7 : ("::ffff:".data).length = 7 := rfl
  have h3 : ("::1".data).length = 3 := rfl
  omega

theorem ffffPrefix_firstGroup (q : List Char) :
    firstGroupLinkLocal ("::ffff:".data ++ q) = false := by
  have h : "::ffff:".data ++ q = ':' :: (":ffff:".data ++ q) := rfl
  rw [h]
  simp only [firstGroupLinkLocal, splitSep_cons_sep, List.headD_cons]

theorem ffffPrefix_fcfd (q : List Char) :
    (beginsWith "fc".data ("::ffff:".data ++ q) ||
      beginsWith "fd".data ("::ffff:".data ++ q)) = false := by
  have h : "::ffff:".data ++ q = ':' :: (":ffff:".data ++ q) := rfl
  rw [h]
  simp [beginsWith, List.isPrefixOf]

theorem ffffPrefix_begins (q : List Char) :
    beginsWith "::ffff:".data ("::ffff:".data ++ q) = true := by
  simp [beginsWith, List.isPrefixOf_iff_prefix]

theorem ffffPrefix_drop (q : List Char) : ("::ffff:".data ++ q).drop 7 = q := by
  have h := List.drop_left "::ffff:".data q
  rw [show ("::ffff:".data).length = 7 from rfl] at h
  exact h

theorem mappedDotted_append (q : List Char) :
    mappedDotted ("::ffff:".data ++ q) =
      (if (parseQuad q).isSome then some q else none) := by
  unfold mappedDotted
  rw [if_pos (ffffPrefix_begins q), ffffPrefix_drop q]

theorem hexGroupOk_no_colon (g : List Char) (h : hexGroupOk g = true) : ':' ∉ g := by
  simp only [hexGroupOk, Bool.and_eq_true, List.all_eq_true] at h
  intro hm
  have hx := h.2 ':' hm
  simp [isLowerHexDigit, isDigitChar] at hx

theorem mappedHexGroups_append (g1 g2 : List Char)
    (h1 : hexGroupOk g1 = true) (h2 : hexGroupOk g2 = true) :
    mappedHexGroups ("::ffff:".data ++ (g1 ++ ':' :: g2)) = some (g1, g2) := by
  unfold mappedHexGroups
  rw [if_pos (ffffPrefix_begins _), ffffPrefix_drop]
  rw [splitSep_append_sep ':' g1 g2 (hexGroupOk_no_colon g1 h1)]
  rw [splitSep_no_sep ':' g2 (hexGroupOk_no_colon g2 h2)]
  simp [h1, h2]

theorem mappedHexGroups_append_nocolon (q : List Char)
    (h : ∀ c ∈ q, isDigitChar c = true ∨ c = '.') :
    mappedHexGroups ("::ffff:".data ++ q) = none := by
  unfold mappedHexGroups
  rw [if_pos (ffffPrefix_begins _), ffffPrefix_drop]
  have hnc : ':' ∉ q := by
    intro hm
    rcases h ':' hm with hd | hd
    · simp [isDigitChar] at hd
    · simp at hd
  rw [splitSep_no_sep ':' q hnc]

/-- The reduction of `isBlockedIPv6` on any lower-case string of the form
`::ffff:<rest>`: the three early branches do not fire. -/
theorem isBlockedIPv6_mapped_reduce (s : String) (q : List Char)
    (hlow : jsToLower s.data = s.data)
    (heq : s.data = "::ffff:".data ++ q) :
    isBlockedIPv6 s =
      (match mappedDotted ("::ffff:".data ++ q) with
       | some q' =>
         let ipv4Check := isBlockedIPv4 (String.mk q')
         if ipv4Check.blocked then
           { blocked := true,
             reason := some ("Access to IPv4-mapped blocked address: " ++ optStr ipv4Check.reason) }
         else ipv6HexMappedCheck ("::ffff:".data ++ q)
       | none => ipv6HexMappedCheck ("::ffff:".data ++ q)) := by
  have hlow' : jsToLower ("::ffff:".data ++ q) = "::ffff:".data ++ q := heq ▸ hlow
  simp only [isBlockedIPv6, heq, hlow']
  rw [if_neg (ffffPrefix_ne_loopback q)]
  simp only [ffffPrefix_firstGroup q, Bool.false_eq_true, if_false, ffffPrefix_fcfd q]

/-- C3: `isBlockedIPv6` blocks the loopback `::1`, every address whose
first 16-bit group masked with `0xFFC0` equals `0xFE80`, every address
whose text starts with `fc` or `fd`, and every IPv4-mapped encoding
(dotted or two-hex-group) of an IPv4 address blocked by `isBlockedIPv4`;
an IPv4-mapped encoding of a non-blocked IPv4 address is not blocked. -/
theorem isBlockedIPv6_correct :
    (isBlockedIPv6 "::1").blocked = true ∧
    (∀ (s : String) (v : Nat), jsToLower s.data = s.data →
      jsParseIntHex ((splitSep ':' s.data).headD []) = some v →
      jsAnd v 65472 = 65152 →
      (isBlockedIPv6 s).blocked = true) ∧
    (∀ s : String, jsToLower s.data = s.data →
      (beginsWith "fc".data s.data || beginsWith "fd".data s.data) = true →
      (isBlockedIPv6 s).blocked = true) ∧
    (∀ (s : String) (q : List Char), jsToLower s.data = s.data →
      s.data = "::ffff:".data ++ q → (parseQuad q).isSome = true →
      (isBlockedIPv4 (String.mk q)).blocked = true →
      (isBlockedIPv6 s).blocked = true) ∧
    (∀ (s : String) (g1 g2 : List Char), jsToLower s.data = s.data →
      s.data = "::ffff:".data ++ (g1 ++ ':' :: g2) →
      hexGroupOk g1 = true → hexGroupOk g2 = true →
      (isBlockedIPv4 (String.mk (unmappedHexQuad g1 g2))).blocked = true →
      (isBlockedIPv6 s).blocked = true) ∧
    (∀ (s : String) (q : List Char), jsToLower s.data = s.data →
      s.data = "::ffff:".data ++ q → (parseQuad q).isSome = true →
      (isBlockedIPv4 (String.mk q)).blocked = false →
      (isBlockedIPv6 s).blocked = false) ∧
    (∀ (s : String) (g1 g2 : List Char), jsToLower s.data = s.data →
      s.data = "::ffff:".data ++ (g1 ++ ':' :: g2) →
      hexGroupOk g1 = true → hexGroupOk g2 = true →
      (isBlockedIPv4 (String.mk (unmappedHexQuad g1 g2))).blocked = false →
      (isBlockedIPv6 s).blocked = false) := by
  refine ⟨by decide, ?_, ?_, ?_, ?_, ?_, ?_⟩
  · intro s v hlow hparse hmask
    simp only [isBlockedIPv6, hlow]
    by_cases h1 : s.data = "::1".data
    · rw [if_pos h1]
    · rw [if_neg h1]
      have hfg : firstGroupLinkLocal s.data = true := by
        unfold firstGroupLinkLocal
        match hg0 : (splitSep ':' s.data).headD [] with
        | [] =>
          rw [hg0] at hparse
          simp [jsParseIntHex] at hparse
        | c :: t =>
          rw [hg0] at hparse
          simp [hparse, hmask]
      rw [if_pos hfg]
  · intro s hlow hfc
    simp only [isBlockedIPv6, hlow]
    by_cases h1 : s.data = "::1".data
    · rw [if_pos h1]
    · rw [if_neg h1]
      by_cases h2 : firstGroupLinkLocal s.data = true
      · rw [if_pos h2]
      · rw [if_neg h2, if_pos hfc]
  · intro s q hlow heq hq hb
    rw [isBlockedIPv6_mapped_reduce s q hlow heq, mappedDotted_append q, if_pos hq]
    simp only [hb, if_true]
  · intro s g1 g2 hlow heq h1 h2 hb
    rw [isBlockedIPv6_mapped_reduce s _ hlow heq, mappedDotted_append _]
    rw [if_neg (by
      rw [parseQuad_none_of_colon _ (List.mem_append_right g1 (List.mem_cons_self ':' g2))]
      simp)]
    unfold ipv6HexMappedCheck
    rw [mappedHexGroups_append g1 g2 h1 h2]
    simp only [hb, if_true]
  · intro s q hlow heq hq hnb
    rw [isBlockedIPv6_mapped_reduce s q hlow heq, mappedDotted_append q, if_pos hq]
    simp only [hnb, Bool.false_eq_true, if_false]
    unfold ipv6HexMappedCheck
    rw [mappedHexGroups_append_nocolon q (parseQuad_chars q hq)]
  · intro s g1 g2 hlow heq h1 h2 hnb
    rw [isBlockedIPv6_mapped_reduce s _ hlow heq, mappedDotted_append _]
    rw [if_neg (by
      rw [parseQuad_none_of_colon _ (List.mem_append_right g1 (List.mem_cons_self ':' g2))]
      simp)]
    unfold ipv6HexMappedCheck
    rw [mappedHexGroups_append g1 g2 h1 h2]
    simp only [hnb, Bool.false_eq_true, if_false]

/-- Witness for C3: concrete instances of each clause — a link-local
address, a unique-local address, both mapped encodings of the blocked
`127.0.0.1`, and both mapped encodings of the public `93.184.216.34`. -/
theorem isBlockedIPv6_correct_witness :
    (isBlockedIPv6 "fe80::1").blocked = true ∧
    (isBlockedIPv6 "fd00::1").blocked = true ∧
    (isBlockedIPv6 "::ffff:127.0.0.1").blocked = true ∧
    (isBlockedIPv6 "::ffff:7f00:1").blocked = true ∧
    (isBlockedIPv6 "::ffff:93.184.216.34").blocked = false ∧
    (isBlockedIPv6 "::ffff:5db8:d822").blocked = false := by
  refine ⟨?_, ?_, ?_, ?_, ?_, ?_⟩
  · exact isBlockedIPv6_correct.2.1 "fe80::1" 65152 (by decide) (by decide) (by decide)
  · exact isBlockedIPv6_correct.2.2.1 "fd00::1" (by decide) (by decide)
  · exact isBlockedIPv6_correct.2.2.2.1 "::ffff:127.0.0.1" "127.0.0.1".data
      (by decide) (by decide) (by decide) (by decide)
  · exact isBlockedIPv6_correct.2.2.2.2.1 "::ffff:7f00:1" "7f00".data "1".data
      (by decide) (by decide) (by decide) (by decide) (by decide)
  · exact isBlockedIPv6_correct.2.2.2.2.2.1 "::ffff:93.184.216.34" "93.184.216.34".data
      (by decide) (by decide) (by decide) (by decide)
  · exact isBlockedIPv6_correct.2.2.2.2.2.2 "::ffff:5db8:d822" "5db8".data "d822".data
      (by decide) (by decide) (by decide) (by decide) (by decide)

/-! ## URL validator: fail-closed error handling (C4) -/

/-- C4: `validateUrl` is a total function into structured results (no
exception crosses the boundary — modelled by totality of the embedding),
and each failure class produces `valid = false` with a human-readable
error: malformed URL, disallowed scheme, name-blocked host, and a DNS
resolver failure (the resolver returning an error). -/
theorem validateUrl_fail_closed (dns : DnsResolver) (protocol h msg : String) :
    (validateUrl .failure dns = { valid := false, error := some "Invalid URL format" }) ∧
    (protocol ≠ "http:" → protocol ≠ "https:" →
      validateUrl (.success protocol h) dns =
        { valid := false, error := some "Only http and https protocols are allowed" }) ∧
    ((protocol = "http:" ∨ protocol = "https:") →
      (String.mk (jsToLower h.data) = "localhost" ∨
        String.mk (jsToLower h.data) = "localhost.localdomain") →
      validateUrl (.success protocol h) dns =
        { valid := false, error := some "Access to localhost is not allowed" }) ∧
    ((protocol = "http:" ∨ protocol = "https:") →
      String.mk (jsToLower h.data) ≠ "localhost" →
      String.mk (jsToLower h.data) ≠ "localhost.localdomain" →
      String.mk (jsToLower h.data) ≠ "[::1]" →
      parseQuad (String.mk (jsToLower h.data)).data = none →
      (beginsWith "[".data (String.mk (jsToLower h.data)).data &&
        endsWithL "]".data (String.mk (jsToLower h.data)).data) = false →
      dns (String.mk (jsToLower h.data)) = .error msg →
      validateUrl (.success protocol h) dns =
        { valid := false, error := some ("DNS resolution failed: " ++ msg) }) := by
  refine ⟨rfl, ?_, ?_, ?_⟩
  · intro h1 h2
    simp only [validateUrl]
    rw [if_pos ⟨h1, h2⟩]
  · intro hp hl
    simp only [validateUrl]
    rw [if_neg (by tauto), if_pos hl]
  · intro hp hn1 hn2 hn3 hp4 hp6 hdns
    simp only [validateUrl]
    rw [if_neg (by tauto), if_neg (by tauto), if_neg hn3]
    simp only [hp4, Option.isSome_none, Bool.false_eq_true, if_false, hp6, hdns]

/-- Witness for C4 at concrete inputs for each failure class. -/
theorem validateUrl_fail_closed_witness :
    (validateUrl (.success "ftp:" "example.com") (fun _ => .error "boom")).valid = false ∧
    (validateUrl (.success "http:" "LOCALHOST") (fun _ => .error "boom")).valid = false ∧
    (validateUrl (.success "http:" "example.com")
      (fun _ => .error "getaddrinfo ENOTFOUND")).valid = false := by
  refine ⟨?_, ?_, ?_⟩
  · rw [(validateUrl_fail_closed (fun _ => .error "boom") "ftp:" "example.com" "x").2.1
      (by decide) (by decide)]
  · rw [(validateUrl_fail_closed (fun _ => .error "boom") "http:" "LOCALHOST" "x").2.2.1
      (Or.inl rfl) (Or.inl (by decide))]
  · rw [(validateUrl_fail_closed (fun _ => .error "getaddrinfo ENOTFOUND") "http:"
      "example.com" "getaddrinfo ENOTFOUND").2.2.2 (Or.inl rfl) (by decide) (by decide)
      (by decide) (by decide) (by decide) rfl]

/-! ## URL validator: DNS resolution phase (C1) -/

theorem scanAddresses_blocked (addrs : List LookupAddress) (first : Option String)
    (hfam : ∀ a ∈ addrs, a.family = 4 ∨ a.family = 6)
    (hb : ∃ a ∈ addrs, blockedLookup a = true) :
    ∃ e, scanAddresses addrs first = .error e := by
  induction addrs generalizing first with
  | nil => simp at hb
  | cons a rest ih =>
    rcases hfam a (List.mem_cons_self a rest) with h4 | h6
    · by_cases hba : (isBlockedIPv4 a.address).blocked = true
      · exact ⟨"DNS resolved to blocked IP: " ++ optStr (isBlockedIPv4 a.address).reason,
          by simp [scanAddresses, h4, hba]⟩
      · have hrest : ∃ x ∈ rest, blockedLookup x = true := by
          rcases hb with ⟨x, hx, hbx⟩
          rcases List.mem_cons.mp hx with rfl | hx'
          · exact absurd (by simpa [blockedLookup, h4] using hbx) hba
          · exact ⟨x, hx', hbx⟩
        obtain ⟨e, he⟩ := ih
          (match first with
           | none => some a.address
           | some s => if s = "" then some a.address else some s)
          (fun x hx => hfam x (List.mem_cons_of_mem a hx)) hrest
        refine ⟨e, ?_⟩
        simpa [scanAddresses, h4, hba] using he
    · have h4' : ¬ a.family = 4 := by simp [h6]
      by_cases hba : (isBlockedIPv6 a.address).blocked = true
      · exact ⟨"DNS resolved to blocked IP: " ++ optStr (isBlockedIPv6 a.address).reason,
          by simp [scanAddresses, h4', h6, hba]⟩
      · have hrest : ∃ x ∈ rest, blockedLookup x = true := by
          rcases hb with ⟨x, hx, hbx⟩
          rcases List.mem_cons.mp hx with rfl | hx'
          · exact absurd (by simpa [blockedLookup, h4', h6] using hbx) hba
          · exact ⟨x, hx', hbx⟩
        obtain ⟨e, he⟩ := ih
          (match first with
           | none => some a.address
           | some s => if s = "" then some a.address else some s)
          (fun x hx => hfam x (List.mem_cons_of_mem a hx)) hrest
        refine ⟨e, ?_⟩
        simpa [scanAddresses, h4', h6, hba] using he

theorem scanAddresses_clean_preserve (addrs : List LookupAddress) (s : String)
    (hs : s ≠ "")
    (hfam : ∀ a ∈ addrs, a.family = 4 ∨ a.family = 6)
    (hclean : ∀ a ∈ addrs, blockedLookup a = false) :
    scanAddresses addrs (some s) = .ok (some s) := by
  induction addrs with
  | nil => rfl
  | cons a rest ih =>
    have hrest := ih (fun x hx => hfam x (List.mem_cons_of_mem a hx))
      (fun x hx => hclean x (List.mem_cons_of_mem a hx))
    rcases hfam a (List.mem_cons_self a rest) with h4 | h6
    · have hba : (isBlockedIPv4 a.address).blocked = false := by
        simpa [blockedLookup, h4] using hclean a (List.mem_cons_self a rest)
      simp [scanAddresses, h4, hba, hs, hrest]
    · have h4' : ¬ a.family = 4 := by simp [h6]
      have hba : (isBlockedIPv6 a.address).blocked = false := by
        simpa [blockedLookup, h4', h6] using hclean a (List.mem_cons_self a rest)
      simp [scanAddresses, h4', h6, hba, hs, hrest]

theorem scanAddresses_clean (addrs : List LookupAddress) (first : Option String)
    (hfirst : first = none ∨ first = some "")
    (hne : addrs ≠ [])
    (hfam : ∀ a ∈ addrs, a.family = 4 ∨ a.family = 6)
    (hclean : ∀ a ∈ addrs, blockedLookup a = false) :
    ∃ a ∈ addrs, scanAddresses addrs first = .ok (some a.address) := by
  induction addrs generalizing first with
  | nil => exact absurd rfl hne
  | cons a rest ih =>
    have hfam' : ∀ x ∈ rest, x.family = 4 ∨ x.family = 6 :=
      fun x hx => hfam x (List.mem_cons_of_mem a hx)
    have hclean' : ∀ x ∈ rest, blockedLookup x = false :=
      fun x hx => hclean x (List.mem_cons_of_mem a hx)
    have hrest : ∃ x ∈ a :: rest,
        scanAddresses rest (some a.address) = .ok (some x.address) := by
      by_cases haddr : a.address = ""
      · cases rest with
        | nil => exact ⟨a, by simp, by simp [scanAddresses]⟩
        | cons y ys =>
          obtain ⟨x, hx, he⟩ := ih (some a.address) (Or.inr (by rw [haddr]))
            (by simp) hfam' hclean'
          exact ⟨x, List.mem_cons_of_mem a hx, he⟩
      · exact ⟨a, List.mem_cons_self a rest,
          scanAddresses_clean_preserve rest a.address haddr hfam' hclean'⟩
    obtain ⟨x, hx, he⟩ := hrest
    rcases hfam a (List.mem_cons_self a rest) with h4 | h6
    · have hba : (isBlockedIPv4 a.address).blocked = false := by
        simpa [blockedLookup, h4] using hclean a (List.mem_cons_self a rest)
      refine ⟨x, hx, ?_⟩
      rcases hfirst with rfl | rfl <;> simpa [scanAddresses, h4, hba] using he
    · have h4' : ¬ a.family = 4 := by simp [h6]
      have hba : (isBlockedIPv6 a.address).blocked = false := by
        simpa [blockedLookup, h4', h6] using hclean a (List.mem_cons_self a rest)
      refine ⟨x, hx, ?_⟩
      rcases hfirst with rfl | rfl <;> simpa [scanAddresses, h4', h6, hba] using he

/-- C1: for a hostname URL (allowed scheme, not name-blocked, not a
literal IP) whose injected resolver returns a non-empty family-tagged
address list, `validateUrl` is invalid when any resolved address is
blocked, and otherwise valid with the parsed hostname and a resolved
non-blocked address for pinning. -/
theorem validateUrl_dns_correct (protocol h : String) (dns : DnsResolver)
    (addrs : List LookupAddress)
    (hproto : protocol = "http:" ∨ protocol = "https:")
    (hlow : String.mk (jsToLower h.data) = h)
    (hname1 : h ≠ "localhost") (hname2 : h ≠ "localhost.localdomain")
    (hname3 : h ≠ "[::1]")
    (hlit4 : parseQuad h.data = none)
    (hlit6 : (beginsWith "[".data h.data && endsWithL "]".data h.data) = false)
    (hdns : dns h = .ok addrs)
    (hne : addrs ≠ [])
    (hfam : ∀ a ∈ addrs, a.family = 4 ∨ a.family = 6) :
    ((∃ a ∈ addrs, blockedLookup a = true) →
      (validateUrl (.success protocol h) dns).valid = false) ∧
    ((∀ a ∈ addrs, blockedLookup a = false) →
      (validateUrl (.success protocol h) dns).valid = true ∧
      (validateUrl (.success protocol h) dns).hostname = some h ∧
      ∃ a ∈ addrs, blockedLookup a = false ∧
        (validateUrl (.success protocol h) dns).resolvedIp = some a.address) := by
  have hlow2 : jsToLower h.data = h.data := congrArg String.data hlow
  have hlow3 : String.mk h.data = h := by rw [hlow2] at hlow
  have hred : validateUrl (.success protocol h) dns =
      (match scanAddresses addrs none with
       | .error e => { valid := false, error := some e }
       | .ok first => { valid := true, resolvedIp := first, hostname := some h }) := by
    simp only [validateUrl]
    rw [if_neg (by tauto)]
    rw [hlow2, hlow3]
    rw [if_neg (by tauto), if_neg hname3]
    simp only [hlit4, Option.isSome_none, Bool.false_eq_true, if_false, hlit6, hdns]
    rw [if_neg (fun hl => hne (List.length_eq_zero.mp hl))]
  constructor
  · intro hb
    obtain ⟨e, he⟩ := scanAddresses_blocked addrs none hfam hb
    rw [hred, he]
  · intro hclean
    obtain ⟨a, ha, he⟩ := scanAddresses_clean addrs none (Or.inl rfl) hne hfam hclean
    rw [hred, he]
    exact ⟨rfl, rfl, a, ha, hclean a ha, rfl⟩

/-- Witness for C1: a hostname resolving to one public IPv4 address is
valid with that address pinned; adding a loopback address invalidates. -/
theorem validateUrl_dns_correct_witness :
    (validateUrl (.success "http:" "example.com")
      (fun _ => .ok [⟨"93.184.216.34", 4⟩])).valid = true ∧
    (validateUrl (.success "http:" "example.com")
      (fun _ => .ok [⟨"93.184.216.34", 4⟩, ⟨"127.0.0.1", 4⟩])).valid = false := by
  constructor
  · exact ((validateUrl_dns_correct "http:" "example.com"
      (fun _ => .ok [⟨"93.184.216.34", 4⟩]) [⟨"93.184.216.34", 4⟩]
      (Or.inl rfl) (by decide) (by decide) (by decide) (by decide) (by decide)
      (by decide) rfl (by decide) (by decide)).2 (by decide)).1
  · exact (validateUrl_dns_correct "http:" "example.com"
      (fun _ => .ok [⟨"93.184.216.34", 4⟩, ⟨"127.0.0.1", 4⟩])
      [⟨"93.184.216.34", 4⟩, ⟨"127.0.0.1", 4⟩]
      (Or.inl rfl) (by decide) (by decide) (by decide) (by decide) (by decide)
      (by decide) rfl (by decide) (by decide)).1
      ⟨⟨"127.0.0.1", 4⟩, by decide, by decide⟩
